import Mathlib

/-!
Verification of `scripts/format_log.py`, a terminal JSON-lines log viewer.

The Python source is shallowly embedded: JSON values become the inductive
type `JVal`, the pure rendering helpers become Lean functions over it, the
pagination loop becomes a recursive function consuming a list of keypresses,
and the follow-mode tailing loop becomes a step function over an explicit
file-system state.  Functions that can raise an uncaught Python exception
are embedded with an `Option` result, where `none` marks the raise.
-/

/-- A parsed JSON value (`json.loads` result).  Numbers are embedded as
integers; the claims under study never involve fractional numbers. -/
inductive JVal where
  | null
  | bool (b : Bool)
  | num (n : Int)
  | str (s : String)
  | arr (items : List JVal)
  | obj (fields : List (String × JVal))
deriving Repr

/-- A JSON object: insertion-ordered fields, as a Python `dict` preserves
insertion order.  Keys are unique in values produced by `json.loads`. -/
abbrev JObj := List (String × JVal)

mutual

/-- Structural equality test on `JVal` (Python `==` on parsed JSON). -/
def JVal.beq : JVal → JVal → Bool
  | .null, .null => true
  | .bool a, .bool b => a == b
  | .num a, .num b => a == b
  | .str a, .str b => a == b
  | .arr a, .arr b => JVal.beqList a b
  | .obj a, .obj b => JVal.beqObj a b
  | _, _ => false
termination_by structural v => v

/-- Elementwise `JVal.beq` on lists. -/
def JVal.beqList : List JVal → List JVal → Bool
  | [], [] => true
  | a :: as, b :: bs => JVal.beq a b && JVal.beqList as bs
  | _, _ => false
termination_by structural l => l

/-- Elementwise `JVal.beq` on object field lists. -/
def JVal.beqObj : List (String × JVal) → List (String × JVal) → Bool
  | [], [] => true
  | (ka, va) :: as, (kb, vb) :: bs =>
      ka == kb && JVal.beq va vb && JVal.beqObj as bs
  | _, _ => false
termination_by structural l => l

end

instance : BEq JVal := ⟨JVal.beq⟩

/-- Python truthiness of a JSON value (`bool(v)`). -/
def truthy : JVal → Bool
  | .null => false
  | .bool b => b
  | .num n => n != 0
  | .str s => !s.isEmpty
  | .arr l => !l.isEmpty
  | .obj l => !l.isEmpty

/-- `dict.get(key, default)`: the stored value when the key is present
(even when that value is falsy), otherwise the default. -/
def pyGet (j : JObj) (k : String) (dflt : JVal) : JVal :=
  match j.find? (fun p => p.1 == k) with
  | some p => p.2
  | none => dflt

/-- `key in dict`. -/
def hasKey (j : JObj) (k : String) : Bool :=
  (j.find? (fun p => p.1 == k)).isSome

mutual

/-- Python `str(v)` for a JSON value, as used by f-string interpolation. -/
def pyStr : JVal → String
  | .null => "None"
  | .bool b => if b then "True" else "False"
  | .num n => toString n
  | .str s => s
  | .arr l => "[" ++ pyStrList l ++ "]"
  | .obj fs => "\x7b" ++ pyStrObj fs ++ "\x7d"
termination_by structural v => v

/-- Comma-separated `repr`s of list items: nested strings gain quotes,
any other value prints through `str`.  Escape handling inside Python's
`repr` of a string is not modelled; the claims never print a string
nested inside a container. -/
def pyStrList : List JVal → String
  | [] => ""
  | [.str s] => "'" ++ s ++ "'"
  | [v] => pyStr v
  | .str s :: rest => "'" ++ s ++ "', " ++ pyStrList rest
  | v :: rest => pyStr v ++ ", " ++ pyStrList rest
termination_by structural l => l

/-- Comma-separated `'key': repr value` pairs of a dict. -/
def pyStrObj : List (String × JVal) → String
  | [] => ""
  | [(k, .str s)] => "'" ++ k ++ "': '" ++ s ++ "'"
  | [(k, v)] => "'" ++ k ++ "': " ++ pyStr v
  | (k, .str s) :: rest => "'" ++ k ++ "': '" ++ s ++ "', " ++ pyStrObj rest
  | (k, v) :: rest => "'" ++ k ++ "': " ++ pyStr v ++ ", " ++ pyStrObj rest
termination_by structural l => l

end

/-- `str.replace(old, new)` for a single-character pattern. -/
def replace1 (a : Char) (new : List Char) : List Char → List Char
  | [] => []
  | c :: rest => if c = a then new ++ replace1 a new rest else c :: replace1 a new rest

/-- `str.replace(old, new)` for a two-character pattern: leftmost,
non-overlapping occurrences. -/
def replace2 (a b : Char) (new : List Char) : List Char → List Char
  | [] => []
  | [c] => [c]
  | c :: d :: rest =>
      if c = a ∧ d = b then new ++ replace2 a b new rest
      else c :: replace2 a b new (d :: rest)

/-- `value.replace('\\n', ' ').replace('\\t', '    ').replace('\\"', '"')`
from `format_log_entry` and `print_nested_fields`. -/
def processEscapes (s : String) : String :=
  ⟨replace2 '\\' '"' ['"']
    (replace2 '\\' 't' [' ', ' ', ' ', ' ']
      (replace2 '\\' 'n' [' '] s.data))⟩

/-- `timestamp_str.replace('Z', '+00:00')` from `convert_timestamp`. -/
def replaceZ (s : String) : String :=
  ⟨replace1 'Z' "+00:00".data s.data⟩

/-- The spec's description of the unescaping pass, written independently
of the code: one left-to-right sweep replacing each literal backslash-n
with a space, each literal backslash-t with four spaces, and each escaped
quote with a quote. -/
def specUnescape : List Char → List Char
  | [] => []
  | [c] => [c]
  | c :: d :: rest =>
      if c = '\\' ∧ d = 'n' then ' ' :: specUnescape rest
      else if c = '\\' ∧ d = 't' then ' ' :: ' ' :: ' ' :: ' ' :: specUnescape rest
      else if c = '\\' ∧ d = '"' then '"' :: specUnescape rest
      else c :: specUnescape (d :: rest)

/-- The fixed 13-color palette of `get_color_code`. -/
def colors : List String :=
  ["\x1b[31m", "\x1b[32m", "\x1b[33m", "\x1b[34m", "\x1b[35m", "\x1b[36m",
   "\x1b[91m", "\x1b[92m", "\x1b[93m", "\x1b[94m", "\x1b[95m", "\x1b[96m",
   "\x1b[97m"]

/-- The rolling hash of `get_color_code`:
`hash_val = (hash_val * 31 + ord(char)) & 0x7FFFFFFF` over the characters. -/
def colorHash (s : String) : Nat :=
  s.data.foldl (fun h c => (h * 31 + c.toNat) % 2147483648) 0

/-- `get_color_code(field_name)` for a string argument: empty name gives
no color, otherwise the hash picks one of the 13 palette entries. -/
def get_color_code (s : String) : String :=
  if s.isEmpty then "" else colors.getD (colorHash s % colors.length) ""

/-- `get_color_code` applied to an arbitrary value, as the header code does
with the `type` field: a falsy argument returns `''` before the character
loop runs, a truthy string hashes, and a truthy non-string raises
`TypeError` when iterated (`none`). -/
def getColorCodeV : JVal → Option String
  | v =>
    if !truthy v then some ""
    else match v with
      | .str s => some (get_color_code s)
      | _ => none

/-- A parsed `datetime`: calendar fields plus an optional UTC offset in
minutes (`None` for a naive datetime). -/
structure PyDateTime where
  year : Nat
  month : Nat
  day : Nat
  hour : Nat
  minute : Nat
  second : Nat
  usec : Nat
  offset : Option Int
deriving Repr, DecidableEq

/-- Gregorian leap-year test. -/
def isLeap (y : Nat) : Bool :=
  y % 4 = 0 && (y % 100 != 0 || y % 400 = 0)

/-- Days in a month of a given year. -/
def daysInMonth (y m : Nat) : Nat :=
  if m = 2 then (if isLeap y then 29 else 28)
  else if m = 4 ∨ m = 6 ∨ m = 9 ∨ m = 11 then 30
  else 31

/-- Read exactly `n` leading decimal digits, returning the value and the
remaining characters. -/
def takeDigits : Nat → List Char → Option (Nat × List Char)
  | 0, cs => some (0, cs)
  | _ + 1, [] => none
  | n + 1, c :: cs =>
      if c.isDigit then
        match takeDigits n cs with
        | some (v, rest) => some ((c.toNat - 48) * 10 ^ n + v, rest)
        | none => none
      else none

/-- Read one to six fractional-second digits, scaled to microseconds. -/
def takeFraction : Nat → Nat → List Char → Option (Nat × List Char)
  | 0, acc, cs => some (acc, cs)
  | _ + 1, acc, [] => some (acc, [])
  | n + 1, acc, c :: cs =>
      if c.isDigit then takeFraction n (acc * 10 + (c.toNat - 48)) cs
      else some (acc, c :: cs)

/-- Scale a fraction read from `k` digits up to six digits. -/
def scaleUsec (digits read : Nat) : Nat :=
  read * 10 ^ (6 - digits)

/-- Count the leading digits of a character list, up to a bound. -/
def countDigits : Nat → List Char → Nat
  | 0, _ => 0
  | _ + 1, [] => 0
  | n + 1, c :: cs => if c.isDigit then 1 + countDigits n cs else 0

/-- Parse the `±HH:MM` offset tail (already validated sign removed). -/
def parseOffsetTail (cs : List Char) : Option (Nat × Nat) :=
  match takeDigits 2 cs with
  | some (oh, ':' :: cs2) =>
      (match takeDigits 2 cs2 with
       | some (om, []) => if oh ≤ 23 ∧ om ≤ 59 then some (oh, om) else none
       | _ => none)
  | _ => none

/-- Parse the time-of-day part `HH:MM[:SS[.ffffff]][±HH:MM]`. -/
def parseClock (y mo d : Nat) (cs : List Char) : Option PyDateTime :=
  match takeDigits 2 cs with
  | some (h, ':' :: cs1) =>
      (match takeDigits 2 cs1 with
       | some (mi, cs2) =>
          (match cs2 with
           | ':' :: cs3 =>
              (match takeDigits 2 cs3 with
               | some (se, cs4) =>
                  (match cs4 with
                   | '.' :: cs5 =>
                      let nd := countDigits 6 cs5
                      (if nd = 0 then none
                       else match takeFraction 6 0 cs5 with
                       | some (fr, cs6) =>
                          (match cs6 with
                           | [] =>
                              if h ≤ 23 ∧ mi ≤ 59 ∧ se ≤ 59 then
                                some ⟨y, mo, d, h, mi, se, scaleUsec nd fr, none⟩
                              else none
                           | '+' :: cs7 =>
                              (match parseOffsetTail cs7 with
                               | some (oh, om) =>
                                  if h ≤ 23 ∧ mi ≤ 59 ∧ se ≤ 59 then
                                    some ⟨y, mo, d, h, mi, se, scaleUsec nd fr,
                                          some ((oh : Int) * 60 + om)⟩
                                  else none
                               | none => none)
                           | '-' :: cs7 =>
                              (match parseOffsetTail cs7 with
                               | some (oh, om) =>
                                  if h ≤ 23 ∧ mi ≤ 59 ∧ se ≤ 59 then
                                    some ⟨y, mo, d, h, mi, se, scaleUsec nd fr,
                                          some (-((oh : Int) * 60 + om))⟩
                                  else none
                               | none => none)
                           | _ => none)
                       | none => none)
                   | [] =>
                      if h ≤ 23 ∧ mi ≤ 59 ∧ se ≤ 59 then
                        some ⟨y, mo, d, h, mi, se, 0, none⟩
                      else none
                   | '+' :: cs5 =>
                      (match parseOffsetTail cs5 with
                       | some (oh, om) =>
                          if h ≤ 23 ∧ mi ≤ 59 ∧ se ≤ 59 then
                            some ⟨y, mo, d, h, mi, se, 0, some ((oh : Int) * 60 + om)⟩
                          else none
                       | none => none)
                   | '-' :: cs5 =>
                      (match parseOffsetTail cs5 with
                       | some (oh, om) =>
                          if h ≤ 23 ∧ mi ≤ 59 ∧ se ≤ 59 then
                            some ⟨y, mo, d, h, mi, se, 0, some (-((oh : Int) * 60 + om))⟩
                          else none
                       | none => none)
                   | _ => none)
               | none => none)
           | [] =>
              if h ≤ 23 ∧ mi ≤ 59 then some ⟨y, mo, d, h, mi, 0, 0, none⟩ else none
           | '+' :: cs3 =>
              (match parseOffsetTail cs3 with
               | some (oh, om) =>
                  if h ≤ 23 ∧ mi ≤ 59 then
                    some ⟨y, mo, d, h, mi, 0, 0, some ((oh : Int) * 60 + om)⟩
                  else none
               | none => none)
           | '-' :: cs3 =>
              (match parseOffsetTail cs3 with
               | some (oh, om) =>
                  if h ≤ 23 ∧ mi ≤ 59 then
                    some ⟨y, mo, d, h, mi, 0, 0, some (-((oh : Int) * 60 + om))⟩
                  else none
               | none => none)
           | _ => none)
       | none => none)
  | _ => none

/-- `datetime.fromisoformat`: `YYYY-MM-DD` optionally followed by a single
separator character and a time-of-day with optional fraction and offset.
`none` is a `ValueError`. -/
def fromisoformat (s : String) : Option PyDateTime :=
  match takeDigits 4 s.data with
  | some (y, '-' :: cs1) =>
      (match takeDigits 2 cs1 with
       | some (mo, '-' :: cs2) =>
          (match takeDigits 2 cs2 with
           | some (d, cs3) =>
              if 1 ≤ y ∧ 1 ≤ mo ∧ mo ≤ 12 ∧ 1 ≤ d ∧ d ≤ daysInMonth y mo then
                match cs3 with
                | [] => some ⟨y, mo, d, 0, 0, 0, 0, none⟩
                | _ :: cs4 => parseClock y mo d cs4
              else none
           | _ => none)
       | _ => none)
  | _ => none

/-- The day after a given calendar date. -/
def nextDay (y m d : Nat) : Nat × Nat × Nat :=
  if d < daysInMonth y m then (y, m, d + 1)
  else if m < 12 then (y, m + 1, 1)
  else (y + 1, 1, 1)

/-- `dt + timedelta(hours=8)`: the flat GMT+8 shift.  The hour field grows
by eight; a single day of carry can occur since hours are below 24. -/
def addEightHours (dt : PyDateTime) : PyDateTime :=
  let t := dt.hour + 8
  if t < 24 then { dt with hour := t }
  else
    let (y, m, d) := nextDay dt.year dt.month dt.day
    { dt with year := y, month := m, day := d, hour := t - 24 }

/-- Zero-padded two-digit decimal. -/
def pad2 (n : Nat) : String :=
  if n < 10 then "0" ++ toString n else toString n

/-- Zero-padded four-digit decimal. -/
def pad4 (n : Nat) : String :=
  if n < 10 then "000" ++ toString n
  else if n < 100 then "00" ++ toString n
  else if n < 1000 then "0" ++ toString n
  else toString n

/-- `dt.strftime('%H:%M:%S')`. -/
def strftimeHMS (dt : PyDateTime) : String :=
  pad2 dt.hour ++ ":" ++ pad2 dt.minute ++ ":" ++ pad2 dt.second

/-- `dt.strftime('%Y-%m-%d %H:%M:%S')`. -/
def strftimeFull (dt : PyDateTime) : String :=
  pad4 dt.year ++ "-" ++ pad2 dt.month ++ "-" ++ pad2 dt.day ++ " " ++ strftimeHMS dt

/-- `convert_timestamp`: parse (with `Z` replaced by `+00:00`), add eight
hours and format `%H:%M:%S`; on any exception return the input unchanged. -/
def convert_timestamp (s : String) : String :=
  match fromisoformat (replaceZ s) with
  | some dt => strftimeHMS (addEightHours dt)
  | none => s

/-- `convert_timestamp` applied to an arbitrary value: a non-string
raises `AttributeError` on `.replace` inside the `try`, which the bare
`except` turns into returning the argument unchanged. -/
def convertTimestampV : JVal → JVal
  | .str s => .str (convert_timestamp s)
  | v => v

/-- `"  " * indent_level`. -/
def indentOf : Nat → String
  | 0 => ""
  | n + 1 => "  " ++ indentOf n

mutual

/-- `print_nested_fields(obj, indent_level)`: the lines it prints.
A scalar argument prints nothing. -/
def print_nested_fields : JVal → Nat → List String
  | .obj fields, lvl => pnfDict fields lvl
  | .arr items, lvl => pnfItems items 0 lvl
  | _, _ => []
termination_by structural v => v

/-- The dict branch of `print_nested_fields`. -/
def pnfDict : List (String × JVal) → Nat → List String
  | [], _ => []
  | (key, value) :: rest, lvl =>
      (match value with
       | .obj inner =>
          (indentOf lvl ++ get_color_code key ++ key ++ ":\x1b[0m")
            :: print_nested_fields (.obj inner) (lvl + 1)
       | .arr items =>
          (indentOf lvl ++ get_color_code key ++ key ++ ":\x1b[0m")
            :: pnfItems items 0 (lvl + 1)
       | .str s =>
          [indentOf lvl ++ get_color_code key ++ key ++ ":\x1b[0m " ++ processEscapes s]
       | v =>
          [indentOf lvl ++ get_color_code key ++ key ++ ":\x1b[0m " ++ pyStr v])
      ++ pnfDict rest lvl
termination_by structural l => l

/-- The enumerated-items rendering shared by the list branches: each item
prints `[i]: value`, dict items recurse one level deeper. -/
def pnfItems : List JVal → Nat → Nat → List String
  | [], _, _ => []
  | item :: rest, i, lvl =>
      (match item with
       | .obj inner =>
          (indentOf lvl ++ "[" ++ toString i ++ "]:")
            :: print_nested_fields (.obj inner) (lvl + 1)
       | v => [indentOf lvl ++ "[" ++ toString i ++ "]: " ++ pyStr v])
      ++ pnfItems rest (i + 1) lvl
termination_by structural l => l

end

/-- One payload field of `format_log_entry` (its own loop, not
`print_nested_fields`): dict and list values expand indented, string
values are unescaped, the field named `"0"` is relabelled `message`. -/
def renderField (key : String) (value : JVal) : List String :=
  match value with
  | .obj inner =>
      ("  " ++ get_color_code key ++ key ++ ":\x1b[0m") :: pnfDict inner 2
  | .arr items =>
      ("  " ++ get_color_code key ++ key ++ ":\x1b[0m") :: pnfItems items 0 2
  | .str s =>
      if key = "0" then
        ["  " ++ get_color_code key ++ "message:\x1b[0m " ++ processEscapes s]
      else
        ["  " ++ get_color_code key ++ key ++ ":\x1b[0m " ++ processEscapes s]
  | v =>
      ["  " ++ get_color_code key ++ key ++ ":\x1b[0m " ++ pyStr v]

/-- All payload fields of a record, skipping `timestamp`, `type`, `time`. -/
def renderFields (j : JObj) : List String :=
  match j with
  | [] => []
  | (key, value) :: rest =>
      (if key = "timestamp" ∨ key = "type" ∨ key = "time" then []
       else renderField key value)
      ++ renderFields rest

/-- The header line of `format_log_entry` (lines 95-111 of the source):
`timestamp` looked up with the `time` value as mere default, both fields
tested by truthiness.  `none` is the `TypeError` raised when
`get_color_code` iterates a truthy non-string `type`. -/
def headerLine (j : JObj) : Option String :=
  let timestamp := pyGet j "timestamp" (pyGet j "time" .null)
  let etype := pyGet j "type" .null
  let ftime : JVal := if truthy timestamp then convertTimestampV timestamp else .str ""
  if truthy ftime ∧ truthy etype then
    match getColorCodeV etype with
    | some c => some ("\x1b[36m[" ++ pyStr ftime ++ "]\x1b[0m " ++ c ++ "[" ++ pyStr etype ++ "]\x1b[0m")
    | none => none
  else if truthy ftime then
    some ("\x1b[36m[" ++ pyStr ftime ++ "]\x1b[0m \x1b[33m[unknown-type]\x1b[0m")
  else if truthy etype then
    match getColorCodeV etype with
    | some c => some ("\x1b[33m[No timestamp]\x1b[0m " ++ c ++ "[" ++ pyStr etype ++ "]\x1b[0m")
    | none => none
  else
    some "\x1b[33m[No timestamp or type]\x1b[0m"

/-- `format_log_entry(json_obj)`: the lines it prints — one leading blank
line, the header, then the payload fields.  A non-dict argument raises
`AttributeError` on `.get`; a truthy non-string `type` raises inside the
header rendering. -/
def format_log_entry : JVal → Option (List String)
  | .obj fields =>
      (match headerLine fields with
       | some hd => some ("" :: hd :: renderFields fields)
       | none => none)
  | _ => none

/-- A line of the input file, abstracted by the outcome of `json.loads` on
its stripped text: `raw` keeps the original line when parsing fails. -/
inductive PyLine where
  | raw (s : String)
  | json (v : JVal)
deriving Repr

/-- Substring containment, Python `pat in s` on strings. -/
def pyInSub (pat : List Char) : List Char → Bool
  | [] => pat.isEmpty
  | c :: rest => pat.isPrefixOf (c :: rest) || pyInSub pat rest

/-- Python `key in v` for a parsed JSON value: key membership for a dict,
element membership for a list, substring test for a string; `in` on a
number, boolean or `None` raises `TypeError` (`none`). -/
def pyInVal (key : String) : JVal → Option Bool
  | .obj fs => some (hasKey fs key)
  | .arr items => some (items.contains (.str key))
  | .str s => some (pyInSub key.data s.data)
  | _ => none

/-- The per-line test of `find_next_timestamp_index`: a non-JSON line is
skipped (`json.JSONDecodeError` caught), a JSON line is tested with
`'timestamp' in obj or 'time' in obj or 'type' in obj`, which raises on
scalar numbers, booleans and `None`. -/
def isEntryCheck : PyLine → Option Bool
  | .raw _ => some false
  | .json v =>
      match pyInVal "timestamp" v with
      | none => none
      | some true => some true
      | some false =>
          match pyInVal "time" v with
          | none => none
          | some true => some true
          | some false => pyInVal "type" v

/-- First matching position in a list of lines: `some (some k)` when found
at relative index `k`, `some none` when no line matches, `none` on raise. -/
def seekEntry : List PyLine → Option (Option Nat)
  | [] => some none
  | l :: ls =>
      match isEntryCheck l with
      | none => none
      | some true => some (some 0)
      | some false =>
          match seekEntry ls with
          | none => none
          | some none => some none
          | some (some k) => some (some (k + 1))

/-- `find_next_timestamp_index(lines, start_index)`: scan forward from
`start`, return the index of the first matching line, or `len(lines)`
when none matches; `none` is the uncaught `TypeError`. -/
def find_next_timestamp_index (lines : List PyLine) (start : Nat) : Option Nat :=
  match seekEntry (lines.drop start) with
  | none => none
  | some (some k) => some (start + k)
  | some none => some lines.length

/-- The timestamp collected from one line by `get_log_summary`:
`some none` when the line contributes nothing, `none` when the line makes
the summary raise (`.get` on a non-dict JSON value, `.replace` on a
truthy non-string timestamp). -/
def summaryScanLine : PyLine → Option (Option PyDateTime)
  | .raw _ => some none
  | .json v =>
      match v with
      | .obj fs =>
          let a := pyGet fs "timestamp" .null
          let ts := if truthy a then a else pyGet fs "time" .null
          if truthy ts then
            match ts with
            | .str s => some (fromisoformat (replaceZ s))
            | _ => none
          else some none
      | _ => none

/-- All timestamps collected over the lines, `none` when any line raises. -/
def collectTimestamps : List PyLine → Option (List PyDateTime)
  | [] => some []
  | l :: ls =>
      match summaryScanLine l with
      | none => none
      | some od =>
          match collectTimestamps ls with
          | none => none
          | some ds => some (match od with | some d => d :: ds | none => ds)

/-- Days from the civil epoch 1970-01-01 (Gregorian), standard algorithm. -/
def daysFromCivil (y m d : Nat) : Int :=
  let yy : Int := if m ≤ 2 then (y : Int) - 1 else (y : Int)
  let era : Int := yy / 400
  let yoe : Int := yy - era * 400
  let mp : Int := if 2 < m then (m : Int) - 3 else (m : Int) + 9
  let doy : Int := (153 * mp + 2) / 5 + (d : Int) - 1
  let doe : Int := yoe * 365 + yoe / 4 - yoe / 100 + doy
  era * 146097 + doe - 719468

/-- The instant of a datetime in microseconds, offset-aware comparison key
(a naive datetime compares as if at UTC). -/
def toUTCMicro (dt : PyDateTime) : Int :=
  let secs : Int := daysFromCivil dt.year dt.month dt.day * 86400
    + (dt.hour : Int) * 3600 + (dt.minute : Int) * 60 + (dt.second : Int)
  let adj : Int := match dt.offset with
    | some o => secs - o * 60
    | none => secs
  adj * 1000000 + (dt.usec : Int)

/-- Strict datetime comparison. -/
def dtLt (a b : PyDateTime) : Bool := toUTCMicro a < toUTCMicro b

/-- `min(timestamps)`: the first minimal element. -/
def dtMinList (d : PyDateTime) (ds : List PyDateTime) : PyDateTime :=
  ds.foldl (fun acc x => if dtLt x acc then x else acc) d

/-- `max(timestamps)`: the first maximal element. -/
def dtMaxList (d : PyDateTime) (ds : List PyDateTime) : PyDateTime :=
  ds.foldl (fun acc x => if dtLt acc x then x else acc) d

/-- The summary that `get_log_summary` returns. -/
structure LogSummary where
  totalEvents : Nat
  startStr : String
  endStr : String
  totalPages : Nat
deriving Repr, DecidableEq

/-- `get_log_summary(lines)`: every line counts as an event, the earliest
and latest valid timestamps are shifted eight hours and formatted
`%Y-%m-%d %H:%M:%S`, and the page count is the ceiling of
`len(lines) / 20` computed as `(len(lines) + 19) // 20`. -/
def get_log_summary (lines : List PyLine) : Option LogSummary :=
  match collectTimestamps lines with
  | none => none
  | some ts =>
      some
        { totalEvents := lines.length
          startStr := match ts with
            | [] => "N/A"
            | d :: ds => strftimeFull (addEightHours (dtMinList d ds))
          endStr := match ts with
            | [] => "N/A"
            | d :: ds => strftimeFull (addEightHours (dtMaxList d ds))
          totalPages := (lines.length + 20 - 1) / 20 }

/-- The marker printed before a raw line in pagination mode (the literal,
doubly-encoded characters present in the source file). -/
def pagRawMark : String :=
  "ğŸ“„ åŸå§‹è¡Œ: "

/-- The end-of-file notice of `paginate_output`. -/
def eofMessage : String :=
  "æ–‡ä»¶ç»“æŸ."

/-- The quit notice of `paginate_output`. -/
def quitMessage : String :=
  "é€€å‡º..."

/-- The marker printed before a raw line in follow mode. -/
def followRawMark : String :=
  "ğŸ“„ Raw Line: "

/-- One line displayed by the pagination loop: a JSON line through
`format_log_entry`, a raw line printed verbatim behind the marker. -/
def renderLinePag : PyLine → Option (List String)
  | .raw s => some [pagRawMark ++ s]
  | .json v => format_log_entry v

/-- The inner page loop: display up to `n` lines starting at `cur`,
returning the output and the new position. -/
def displayPage (lines : List PyLine) : Nat → Nat → Option (List String × Nat)
  | cur, 0 => some ([], cur)
  | cur, n + 1 =>
      match lines.get? cur with
      | none => some ([], cur)
      | some l =>
          match renderLinePag l with
          | none => none
          | some o =>
              match displayPage lines (cur + 1) n with
              | none => none
              | some (os, c) => some (o ++ os, c)

/-- The outer loop of `paginate_output` from the first page display on,
consuming one keypress per page (source lines 322-378).  Result: the
printed lines, the final position and whether the end-of-file notice was
printed.  `q` quits, Enter jumps to the next recognized entry, and any
other key — space included — continues with the next page.  An exhausted
key list stops the run; `none` is an uncaught exception. -/
def pagRun (lines : List PyLine) (cur : Nat) (keys : List Char)
    (out : List String) : Option (List String × Nat × Bool) :=
  if cur < lines.length then
    match displayPage lines cur 20 with
    | none => none
    | some (o, cur2) =>
        if cur2 < lines.length then
          match keys with
          | [] => some (out ++ o, cur2, false)
          | ch :: ks =>
              if ch.toLower = 'q' then some (out ++ o ++ [quitMessage], cur2, false)
              else if ch = ' ' then pagRun lines cur2 ks (out ++ o)
              else if ch = '\n' ∨ ch = '\r' then
                match find_next_timestamp_index lines cur2 with
                | none => none
                | some idx =>
                    if idx < lines.length then
                      match lines.get? idx with
                      | none => none
                      | some l =>
                          match renderLinePag l with
                          | none => none
                          | some r => pagRun lines (idx + 1) ks (out ++ o ++ r)
                    else some (out ++ o ++ [eofMessage], cur2, true)
              else pagRun lines cur2 ks (out ++ o)
        else some (out ++ o ++ [eofMessage], cur2, true)
  else some (out, cur, false)
termination_by structural keys

/-- Python `str.strip()` whitespace test (ASCII subset). -/
def pyIsSpace (c : Char) : Bool :=
  c = ' ' ∨ c = '\t' ∨ c = '\n' ∨ c = '\r' ∨ c = '\x0b' ∨ c = '\x0c'

/-- Python `line.strip()`. -/
def pyStrip (s : String) : String :=
  ⟨((s.data.dropWhile pyIsSpace).reverse.dropWhile pyIsSpace).reverse⟩

/-- One line emitted by the follow loop: a JSON line through
`format_log_entry`, a raw line stripped and printed behind the marker. -/
def renderLineFollow : PyLine → Option (List String)
  | .raw s => some [followRawMark ++ pyStrip s]
  | .json v => format_log_entry v

/-- Where a line of a tracked file came from: present at start, part of a
replacement file's payload, or appended by the writer while running. -/
inductive Origin where
  | initial
  | replaced
  | appended
deriving Repr, DecidableEq

/-- A line of a tracked file, stamped with a unique identity so that the
same text appearing twice stays distinguishable. -/
structure SLine where
  id : Nat
  origin : Origin
  text : PyLine
deriving Repr

/-- The follow-mode world: files are contents indexed by inode (fresh
inodes are allocated consecutively), `pathIno` is the inode currently
behind the watched path, the handle is `(hIno, hOff)`, and `emitted`
collects every line the loop has read and printed. -/
structure FState where
  files : List (List SLine)
  pathIno : Nat
  hIno : Nat
  hOff : Nat
  nextId : Nat
  emitted : List SLine
deriving Repr

/-- Contents of the file with a given inode. -/
def fileAt (st : FState) (i : Nat) : List SLine := st.files.getD i []

/-- Events interleaving with the follow loop: the writer appends a line to
the file at the watched path, the writer replaces the path with a fresh
file, or the loop performs one `readline`-and-poll step. -/
inductive FEv where
  | append (p : PyLine)
  | replace (ps : List PyLine)
  | read
deriving Repr

/-- Stamp a list of texts with consecutive identities. -/
def stamp (o : Origin) : Nat → List PyLine → List SLine
  | _, [] => []
  | n, p :: ps => ⟨n, o, p⟩ :: stamp o (n + 1) ps

/-- One step of the follow-mode world (`tail_follow`, source lines
451-494).  A `read` with data emits the next line of the file the handle
points at; a `read` at end of file polls the path: when the inode behind
the path has changed, the loop re-opens the path and seeks to the end of
the replacement (`f.seek(0, os.SEEK_END)`), otherwise it keeps waiting. -/
def fstep (st : FState) : FEv → FState
  | .append p =>
      { st with
          files := st.files.set st.pathIno
            (fileAt st st.pathIno ++ [⟨st.nextId, .appended, p⟩])
          nextId := st.nextId + 1 }
  | .replace ps =>
      { st with
          files := st.files ++ [stamp .replaced st.nextId ps]
          pathIno := st.files.length
          nextId := st.nextId + ps.length }
  | .read =>
      let cur := fileAt st st.hIno
      if h : st.hOff < cur.length then
        { st with emitted := st.emitted ++ [cur.get ⟨st.hOff, h⟩], hOff := st.hOff + 1 }
      else if st.pathIno = st.hIno then st
      else { st with hIno := st.pathIno, hOff := (fileAt st st.pathIno).length }

/-- Run the follow loop under a sequence of events. -/
def runFrom (st : FState) : List FEv → FState
  | [] => st
  | e :: es => runFrom (fstep st e) es

/-- The state right after `tail_follow` attaches: one file holding the
pre-existing content, the handle on it, seeked to its end. -/
def initFollow (pre : List PyLine) : FState :=
  { files := [stamp .initial 0 pre]
    pathIno := 0
    hIno := 0
    hOff := pre.length
    nextId := pre.length
    emitted := [] }

/-- Heads that cannot complete a two-character backslash pattern. -/
def headSafe : List Char → Prop
  | [] => True
  | c :: _ => c = '\\' ∨ c = ' '

/-- A value the header code can pass to `get_color_code` without raising:
a string, or anything falsy. -/
def strOrFalsy : JVal → Bool
  | .str _ => true
  | v => !truthy v

/-- Structural invariant of the follow-mode world: the handle and the
path point at allocated inodes, the read offset never passes the end of
the handled file, and every stamped identity is below the allocator. -/
def StInv (st : FState) : Prop :=
  st.hIno < st.files.length ∧
  st.pathIno < st.files.length ∧
  st.hOff ≤ (fileAt st st.hIno).length ∧
  ∀ f ∈ st.files, ∀ l ∈ f, l.id < st.nextId

/-- Emission invariant: everything emitted so far was appended by the
writer while the loop ran, and everything still unread in the handled
file past the current offset was appended too. -/
def followInv (st : FState) : Prop :=
  (∀ l ∈ st.emitted, l.origin = .appended) ∧
  ∀ l ∈ (fileAt st st.hIno).drop st.hOff, l.origin = .appended

/-- A stamped identity the handle has passed: it is below the allocator,
every remaining occurrence in the handled file sits before the read
offset, and it has not been emitted. -/
def deadIn (k : Nat) (st : FState) : Prop :=
  k < st.nextId ∧
  (∀ l ∈ (fileAt st st.hIno).drop st.hOff, l.id ≠ k) ∧
  ∀ l ∈ st.emitted, l.id ≠ k

theorem replace2_cons_safe (a b : Char) (new : List Char) (c : Char) (l : List Char)
    (hc : c ≠ a) : replace2 a b new (c :: l) = c :: replace2 a b new l := by
  cases l with
  | nil => simp [replace2]
  | cons d rest => simp [replace2, hc]

theorem specUnescape_cons_safe (c : Char) (l : List Char) (hc : c ≠ '\\') :
    specUnescape (c :: l) = c :: specUnescape l := by
  cases l with
  | nil => simp [specUnescape]
  | cons d rest => simp [specUnescape, hc]


theorem r1_backslash_headSafe (l : List Char) :
    headSafe (replace2 '\\' 'n' [' '] ('\\' :: l)) := by
  cases l with
  | nil => simp [replace2, headSafe]
  | cons e r =>
    by_cases he : e = 'n'
    · subst he; simp [replace2, headSafe]
    · simp only [replace2]
      rw [if_neg (by simp [he])]
      simp [headSafe]

theorem r2_headSafe (X : List Char) (h : headSafe X) :
    headSafe (replace2 '\\' 't' [' ', ' ', ' ', ' '] X) := by
  match X with
  | [] => simpa [replace2] using h
  | [c] => simpa [replace2] using h
  | c :: d :: r =>
    rcases h with hc | hc
    · subst hc
      by_cases hd : d = 't'
      · subst hd; simp [replace2, headSafe]
      · simp only [replace2]
        rw [if_neg (by simp [hd])]
        simp [headSafe]
    · subst hc
      simp only [replace2]
      rw [if_neg (fun hx => absurd hx.1 (by decide))]
      simp [headSafe]

theorem r2_backslash_cons (X : List Char) (h : headSafe X) :
    replace2 '\\' 't' [' ', ' ', ' ', ' '] ('\\' :: X)
      = '\\' :: replace2 '\\' 't' [' ', ' ', ' ', ' '] X := by
  match X with
  | [] => simp [replace2]
  | c :: t =>
    rcases h with hc | hc <;> subst hc <;>
      · simp only [replace2]
        rw [if_neg (by decide)]

theorem r3_backslash_cons (X : List Char) (h : headSafe X) :
    replace2 '\\' '"' ['"'] ('\\' :: X) = '\\' :: replace2 '\\' '"' ['"'] X := by
  match X with
  | [] => simp [replace2]
  | c :: t =>
    rcases h with hc | hc <;> subst hc <;>
      · simp only [replace2]
        rw [if_neg (by decide)]

/-- The three sequential `str.replace` passes of the source compute the
spec's single simultaneous unescaping sweep. -/
theorem chain_eq_specUnescape : ∀ l : List Char,
    replace2 '\\' '"' ['"'] (replace2 '\\' 't' [' ', ' ', ' ', ' ']
      (replace2 '\\' 'n' [' '] l)) = specUnescape l
  | [] => rfl
  | [c] => rfl
  | c :: d :: rest => by
    by_cases hc : c = '\\'
    · subst hc
      by_cases hdn : d = 'n'
      · subst hdn
        have h1 : replace2 '\\' 'n' [' '] ('\\' :: 'n' :: rest)
            = ' ' :: replace2 '\\' 'n' [' '] rest := by simp [replace2]
        rw [h1, replace2_cons_safe _ _ _ _ _ (by decide),
            replace2_cons_safe _ _ _ _ _ (by decide),
            chain_eq_specUnescape rest]
        simp [specUnescape]
      · by_cases hdt : d = 't'
        · subst hdt
          have h1 : replace2 '\\' 'n' [' '] ('\\' :: 't' :: rest)
              = '\\' :: 't' :: replace2 '\\' 'n' [' '] rest := by
            simp only [replace2]
            rw [if_neg (by decide)]
            rw [replace2_cons_safe _ _ _ _ _ (by decide)]
          have h2 : replace2 '\\' 't' [' ', ' ', ' ', ' ']
              ('\\' :: 't' :: replace2 '\\' 'n' [' '] rest)
              = ' ' :: ' ' :: ' ' :: ' ' ::
                replace2 '\\' 't' [' ', ' ', ' ', ' '] (replace2 '\\' 'n' [' '] rest) := by
            simp [replace2]
          rw [h1, h2,
              replace2_cons_safe _ _ _ _ _ (by decide),
              replace2_cons_safe _ _ _ _ _ (by decide),
              replace2_cons_safe _ _ _ _ _ (by decide),
              replace2_cons_safe _ _ _ _ _ (by decide),
              chain_eq_specUnescape rest]
          simp [specUnescape]
        · by_cases hdq : d = '"'
          · subst hdq
            have h1 : replace2 '\\' 'n' [' '] ('\\' :: '"' :: rest)
                = '\\' :: '"' :: replace2 '\\' 'n' [' '] rest := by
              simp only [replace2]
              rw [if_neg (by decide)]
              rw [replace2_cons_safe _ _ _ _ _ (by decide)]
            have h2 : replace2 '\\' 't' [' ', ' ', ' ', ' ']
                ('\\' :: '"' :: replace2 '\\' 'n' [' '] rest)
                = '\\' :: '"' ::
                  replace2 '\\' 't' [' ', ' ', ' ', ' '] (replace2 '\\' 'n' [' '] rest) := by
              simp only [replace2]
              rw [if_neg (by decide)]
              rw [replace2_cons_safe _ _ _ _ _ (by decide)]
            have h3 : replace2 '\\' '"' ['"']
                ('\\' :: '"' :: replace2 '\\' 't' [' ', ' ', ' ', ' ']
                  (replace2 '\\' 'n' [' '] rest))
                = '"' :: replace2 '\\' '"' ['"']
                    (replace2 '\\' 't' [' ', ' ', ' ', ' ']
                      (replace2 '\\' 'n' [' '] rest)) := by
              simp [replace2]
            rw [h1, h2, h3, chain_eq_specUnescape rest]
            simp [specUnescape]
          · by_cases hdb : d = '\\'
            · subst hdb
              have h1 : replace2 '\\' 'n' [' '] ('\\' :: '\\' :: rest)
                  = '\\' :: replace2 '\\' 'n' [' '] ('\\' :: rest) := by
                simp only [replace2]
                rw [if_neg (by decide)]
              have hs1 := r1_backslash_headSafe rest
              rw [h1, r2_backslash_cons _ hs1, r3_backslash_cons _ (r2_headSafe _ hs1),
                  chain_eq_specUnescape ('\\' :: rest)]
              simp only [specUnescape]
              rw [if_neg (by decide), if_neg (by decide), if_neg (by decide)]
            · have h1 : replace2 '\\' 'n' [' '] ('\\' :: d :: rest)
                  = '\\' :: d :: replace2 '\\' 'n' [' '] rest := by
                simp only [replace2]
                rw [if_neg (by simp [hdn])]
                rw [replace2_cons_safe _ _ _ _ _ hdb]
              have h2 : replace2 '\\' 't' [' ', ' ', ' ', ' ']
                  ('\\' :: d :: replace2 '\\' 'n' [' '] rest)
                  = '\\' :: d ::
                    replace2 '\\' 't' [' ', ' ', ' ', ' '] (replace2 '\\' 'n' [' '] rest) := by
                simp only [replace2]
                rw [if_neg (by simp [hdt])]
                rw [replace2_cons_safe _ _ _ _ _ hdb]
              have h3 : replace2 '\\' '"' ['"']
                  ('\\' :: d :: replace2 '\\' 't' [' ', ' ', ' ', ' ']
                    (replace2 '\\' 'n' [' '] rest))
                  = '\\' :: d :: replace2 '\\' '"' ['"']
                      (replace2 '\\' 't' [' ', ' ', ' ', ' ']
                        (replace2 '\\' 'n' [' '] rest)) := by
                simp only [replace2]
                rw [if_neg (by simp [hdq])]
                rw [replace2_cons_safe _ _ _ _ _ hdb]
              rw [h1, h2, h3, chain_eq_specUnescape rest]
              have hs : specUnescape ('\\' :: d :: rest) = '\\' :: specUnescape (d :: rest) := by
                simp only [specUnescape]
                rw [if_neg (by simp [hdn]), if_neg (by simp [hdt]), if_neg (by simp [hdq])]
              rw [hs, specUnescape_cons_safe _ _ hdb]
    · rw [replace2_cons_safe _ _ _ _ _ hc, replace2_cons_safe _ _ _ _ _ hc,
          replace2_cons_safe _ _ _ _ _ hc, chain_eq_specUnescape (d :: rest),
          specUnescape_cons_safe _ _ hc]
termination_by l => l.length

/-- The three-pass unescaping equals the spec's single sweep, on strings. -/
theorem processEscapes_eq_spec (s : String) :
    processEscapes s = String.mk (specUnescape s.data) := by
  unfold processEscapes
  rw [chain_eq_specUnescape]

/-- C6: rendering a string-valued payload field replaces each literal
backslash-n with a space, each literal backslash-t with four spaces and
each escaped quote with a quote, and a field literally named `"0"` is
relabelled `message`, so `{"0": "hi"}` renders that field `message: hi`. -/
theorem string_field_unescapes_and_relabels :
    (∀ (k v : String), k ≠ "0" →
        renderField k (.str v)
          = ["  " ++ get_color_code k ++ k ++ ":\x1b[0m "
              ++ String.mk (specUnescape v.data)]) ∧
    (∀ v : String,
        renderField "0" (.str v)
          = ["  " ++ get_color_code "0" ++ "message:\x1b[0m "
              ++ String.mk (specUnescape v.data)]) ∧
    format_log_entry (.obj [("0", .str "hi")])
      = some ["", "\x1b[33m[No timestamp or type]\x1b[0m", "  \x1b[94mmessage:\x1b[0m hi"] := by
  refine ⟨fun k v hk => ?_, fun v => ?_, by decide⟩
  · simp [renderField, hk, processEscapes_eq_spec]
  · simp [renderField, processEscapes_eq_spec]

theorem string_field_unescapes_and_relabels_witness :
    ("msg" : String) ≠ "0" ∧
    renderField "msg" (.str "a\\nb\\tc")
      = ["  " ++ get_color_code "msg" ++ "msg" ++ ":\x1b[0m "
          ++ String.mk (specUnescape "a\\nb\\tc".data)] :=
  ⟨by decide, string_field_unescapes_and_relabels.1 "msg" "a\\nb\\tc" (by decide)⟩

/-- C5: field coloring is a pure function of the field name: equal names
get equal colors, the empty name gets no color, and a non-empty name gets
the palette entry selected by the rolling hash modulo 13. -/
theorem get_color_code_pure_hash :
    (∀ n₁ n₂ : String, n₁ = n₂ → get_color_code n₁ = get_color_code n₂) ∧
    get_color_code "" = "" ∧
    (∀ n : String, n ≠ "" →
        get_color_code n = colors.getD (colorHash n % 13) ""
          ∧ get_color_code n ∈ colors) := by
  refine ⟨fun a b h => by rw [h], by decide, fun n hn => ?_⟩
  unfold get_color_code
  rw [if_neg (fun h => hn ((String.isEmpty_iff n).mp h))]
  refine ⟨rfl, ?_⟩
  have hlt : colorHash n % colors.length < colors.length := Nat.mod_lt _ (by decide)
  rw [List.getD_eq_getElem _ _ hlt]
  exact List.getElem_mem hlt

theorem get_color_code_pure_hash_witness :
    ("msg" : String) ≠ "" ∧
    (get_color_code "msg" = colors.getD (colorHash "msg" % 13) ""
      ∧ get_color_code "msg" ∈ colors) :=
  ⟨by decide, get_color_code_pure_hash.2.2 "msg" (by decide)⟩

/-- C3: timestamp conversion is total — every string whose `Z`-normalized
form parses is shifted eight hours flat and formatted `%H:%M:%S` (the
summary path formats `%Y-%m-%d %H:%M:%S`, the date rolling over), and
every string that fails to parse comes back unchanged, without raising. -/
theorem convert_timestamp_total_and_examples :
    (∀ s dt, fromisoformat (replaceZ s) = some dt →
        convert_timestamp s = strftimeHMS (addEightHours dt)) ∧
    (∀ s, fromisoformat (replaceZ s) = none → convert_timestamp s = s) ∧
    convert_timestamp "2024-01-01T00:00:00Z" = "08:00:00" ∧
    convert_timestamp "not-a-date" = "not-a-date" ∧
    get_log_summary [PyLine.json (JVal.obj [("timestamp", JVal.str "2024-01-01T20:00:00Z")])]
      = some ⟨1, "2024-01-02 04:00:00", "2024-01-02 04:00:00", 1⟩ := by
  refine ⟨fun s dt h => ?_, fun s h => ?_, by decide, by decide, by decide⟩
  · unfold convert_timestamp
    rw [h]
  · unfold convert_timestamp
    rw [h]

theorem convert_timestamp_total_and_examples_witness :
    fromisoformat (replaceZ "2024-06-01T10:00:00Z")
      = some ⟨2024, 6, 1, 10, 0, 0, 0, some 0⟩ ∧
    convert_timestamp "2024-06-01T10:00:00Z"
      = strftimeHMS (addEightHours ⟨2024, 6, 1, 10, 0, 0, 0, some 0⟩) :=
  ⟨by decide, convert_timestamp_total_and_examples.1 _ _ (by decide)⟩


theorem strftimeHMS_ne_empty (dt : PyDateTime) : strftimeHMS dt ≠ "" := by
  intro h
  have hl := congrArg String.length h
  have h1 : (":" : String).length = 1 := rfl
  have h0 : ("" : String).length = 0 := rfl
  simp only [strftimeHMS, String.length_append, h1, h0] at hl
  omega

theorem convert_timestamp_ne_empty (s : String) (hs : s ≠ "") :
    convert_timestamp s ≠ "" := by
  unfold convert_timestamp
  cases hp : fromisoformat (replaceZ s) with
  | none => exact hs
  | some dt => exact strftimeHMS_ne_empty (addEightHours dt)

/-- The truthiness test on `formatted_time` coincides with the test on the
looked-up timestamp value: conversion never turns a truthy value falsy or
vice versa. -/
theorem truthy_ftime (ts : JVal) :
    truthy (if truthy ts then convertTimestampV ts else .str "") = truthy ts := by
  by_cases h : truthy ts = true
  · rw [if_pos h, h]
    cases ts with
    | str s =>
        have hs : s ≠ "" := by
          intro hh
          rw [hh] at h
          exact absurd h (by decide)
        show truthy (JVal.str (convert_timestamp s)) = true
        simp only [truthy]
        cases hie : (convert_timestamp s).isEmpty with
        | false => decide
        | true =>
            exact absurd ((String.isEmpty_iff _).mp hie)
              (convert_timestamp_ne_empty s hs)
    | null => simp [truthy] at h
    | bool b => simpa [convertTimestampV, truthy] using h
    | num n => simpa [convertTimestampV, truthy] using h
    | arr l => simpa [convertTimestampV, truthy] using h
    | obj l => simpa [convertTimestampV, truthy] using h
  · rw [if_neg h]
    rw [Bool.not_eq_true] at h
    rw [h]
    decide

/-- The four header shapes of `format_log_entry`, selected by truthiness
of the looked-up timestamp and of the `type` value, assuming the `type`
value cannot make `get_color_code` raise. -/
theorem headerLine_cases (j : JObj)
    (hty : strOrFalsy (pyGet j "type" JVal.null) = true) :
    (truthy (pyGet j "timestamp" (pyGet j "time" JVal.null)) = true →
      truthy (pyGet j "type" JVal.null) = true →
      headerLine j = some ("\x1b[36m["
        ++ pyStr (convertTimestampV (pyGet j "timestamp" (pyGet j "time" JVal.null)))
        ++ "]\x1b[0m " ++ get_color_code (pyStr (pyGet j "type" JVal.null))
        ++ "[" ++ pyStr (pyGet j "type" JVal.null) ++ "]\x1b[0m")) ∧
    (truthy (pyGet j "timestamp" (pyGet j "time" JVal.null)) = true →
      truthy (pyGet j "type" JVal.null) = false →
      headerLine j = some ("\x1b[36m["
        ++ pyStr (convertTimestampV (pyGet j "timestamp" (pyGet j "time" JVal.null)))
        ++ "]\x1b[0m \x1b[33m[unknown-type]\x1b[0m")) ∧
    (truthy (pyGet j "timestamp" (pyGet j "time" JVal.null)) = false →
      truthy (pyGet j "type" JVal.null) = true →
      headerLine j = some ("\x1b[33m[No timestamp]\x1b[0m "
        ++ get_color_code (pyStr (pyGet j "type" JVal.null))
        ++ "[" ++ pyStr (pyGet j "type" JVal.null) ++ "]\x1b[0m")) ∧
    (truthy (pyGet j "timestamp" (pyGet j "time" JVal.null)) = false →
      truthy (pyGet j "type" JVal.null) = false →
      headerLine j = some "\x1b[33m[No timestamp or type]\x1b[0m") := by
  have hft := truthy_ftime (pyGet j "timestamp" (pyGet j "time" JVal.null))
  refine ⟨fun h1 h2 => ?_, fun h1 h2 => ?_, fun h1 h2 => ?_, fun h1 h2 => ?_⟩
  · unfold headerLine
    rw [if_pos ⟨by rw [hft]; exact h1, h2⟩]
    revert hty h2
    cases hv : pyGet j "type" JVal.null <;> intro hty h2 <;>
      simp_all [strOrFalsy, truthy, getColorCodeV, pyStr]
  · unfold headerLine
    rw [if_neg (fun hx => by rw [h2] at hx; exact absurd hx.2 (by decide)),
        if_pos (by rw [hft]; exact h1), if_pos h1]
  · unfold headerLine
    rw [if_neg (fun hx => by rw [hft] at hx; rw [h1] at hx; exact absurd hx.1 (by decide)),
        if_neg (by rw [hft]; rw [h1]; decide), if_pos h2]
    revert hty h2
    cases hv : pyGet j "type" JVal.null <;> intro hty h2 <;>
      simp_all [strOrFalsy, truthy, getColorCodeV, pyStr]
  · unfold headerLine
    rw [if_neg (fun hx => by rw [hft] at hx; rw [h1] at hx; exact absurd hx.1 (by decide)),
        if_neg (by rw [hft]; rw [h1]; decide), if_neg (by rw [h2]; decide)]

theorem pyGet_present (j : JObj) (k : String) (h : hasKey j k = true)
    (d d' : JVal) : pyGet j k d = pyGet j k d' := by
  unfold pyGet
  unfold hasKey at h
  cases hf : j.find? (fun p => p.1 == k) with
  | some p => rfl
  | none => rw [hf] at h; exact absurd h (by decide)

theorem format_of_header (j : JObj) (hd : String) (h : headerLine j = some hd) :
    format_log_entry (.obj j) = some ("" :: hd :: renderFields j) := by
  simp [format_log_entry, h]

/-- C4 counterexample: in the record `{"timestamp": "", "type": "info"}`
both the timestamp and the type key are present, yet the emitted header is
the no-timestamp form — it starts with the yellow escape `\x1b[33m[`,
while every header of the claimed both-present case `[HH:MM:SS] [type]`
starts with the cyan escape `\x1b[36m[`.  The case split is driven by
truthiness of the looked-up values, not by key presence. -/
theorem header_presence_cex :
    hasKey [("timestamp", JVal.str ""), ("type", JVal.str "info")] "timestamp" = true ∧
    hasKey [("timestamp", JVal.str ""), ("type", JVal.str "info")] "type" = true ∧
    format_log_entry (.obj [("timestamp", .str ""), ("type", .str "info")])
      = some ["", "\x1b[33m[No timestamp]\x1b[0m \x1b[97m[info]\x1b[0m"] ∧
    ("\x1b[33m[No timestamp]\x1b[0m \x1b[97m[info]\x1b[0m").data.take 6
      ≠ ("\x1b[36m[" : String).data := by
  decide

/-- C4 (amended): for every record whose `type` value is a string or falsy
(a truthy non-string `type` makes the renderer raise), rendering emits
exactly one leading blank line followed by the header, and the header text
falls into exactly four cases selected by truthiness of the looked-up
timestamp (`timestamp` key, with the `time` value as lookup default) and
of the `type` value: both truthy `[HH:MM:SS] [type]`; only the time truthy
`[HH:MM:SS] [unknown-type]`; only the type truthy `[No timestamp] [type]`;
neither `[No timestamp or type]`. -/
theorem format_entry_blank_line_and_header (j : JObj)
    (hty : strOrFalsy (pyGet j "type" JVal.null) = true) :
    (∃ hd, headerLine j = some hd ∧
        format_log_entry (.obj j) = some ("" :: hd :: renderFields j)) ∧
    ((truthy (pyGet j "timestamp" (pyGet j "time" JVal.null)) = true →
      truthy (pyGet j "type" JVal.null) = true →
      headerLine j = some ("\x1b[36m["
        ++ pyStr (convertTimestampV (pyGet j "timestamp" (pyGet j "time" JVal.null)))
        ++ "]\x1b[0m " ++ get_color_code (pyStr (pyGet j "type" JVal.null))
        ++ "[" ++ pyStr (pyGet j "type" JVal.null) ++ "]\x1b[0m")) ∧
    (truthy (pyGet j "timestamp" (pyGet j "time" JVal.null)) = true →
      truthy (pyGet j "type" JVal.null) = false →
      headerLine j = some ("\x1b[36m["
        ++ pyStr (convertTimestampV (pyGet j "timestamp" (pyGet j "time" JVal.null)))
        ++ "]\x1b[0m \x1b[33m[unknown-type]\x1b[0m")) ∧
    (truthy (pyGet j "timestamp" (pyGet j "time" JVal.null)) = false →
      truthy (pyGet j "type" JVal.null) = true →
      headerLine j = some ("\x1b[33m[No timestamp]\x1b[0m "
        ++ get_color_code (pyStr (pyGet j "type" JVal.null))
        ++ "[" ++ pyStr (pyGet j "type" JVal.null) ++ "]\x1b[0m")) ∧
    (truthy (pyGet j "timestamp" (pyGet j "time" JVal.null)) = false →
      truthy (pyGet j "type" JVal.null) = false →
      headerLine j = some "\x1b[33m[No timestamp or type]\x1b[0m")) := by
  have hc := headerLine_cases j hty
  refine ⟨?_, hc⟩
  cases h1 : truthy (pyGet j "timestamp" (pyGet j "time" JVal.null)) with
  | true =>
      cases h2 : truthy (pyGet j "type" JVal.null) with
      | true => exact ⟨_, hc.1 h1 h2, format_of_header _ _ (hc.1 h1 h2)⟩
      | false => exact ⟨_, hc.2.1 h1 h2, format_of_header _ _ (hc.2.1 h1 h2)⟩
  | false =>
      cases h2 : truthy (pyGet j "type" JVal.null) with
      | true => exact ⟨_, hc.2.2.1 h1 h2, format_of_header _ _ (hc.2.2.1 h1 h2)⟩
      | false => exact ⟨_, hc.2.2.2 h1 h2, format_of_header _ _ (hc.2.2.2 h1 h2)⟩

theorem format_entry_blank_line_and_header_witness :
    strOrFalsy (pyGet [("timestamp", JVal.str "2024-01-01T00:00:00Z"),
        ("type", JVal.str "info")] "type" JVal.null) = true ∧
    headerLine [("timestamp", JVal.str "2024-01-01T00:00:00Z"),
        ("type", JVal.str "info")]
      = some ("\x1b[36m["
          ++ pyStr (convertTimestampV (pyGet [("timestamp", JVal.str "2024-01-01T00:00:00Z"),
                ("type", JVal.str "info")] "timestamp"
                (pyGet [("timestamp", JVal.str "2024-01-01T00:00:00Z"),
                  ("type", JVal.str "info")] "time" JVal.null)))
          ++ "]\x1b[0m "
          ++ get_color_code (pyStr (pyGet [("timestamp", JVal.str "2024-01-01T00:00:00Z"),
                ("type", JVal.str "info")] "type" JVal.null))
          ++ "[" ++ pyStr (pyGet [("timestamp", JVal.str "2024-01-01T00:00:00Z"),
                ("type", JVal.str "info")] "type" JVal.null) ++ "]\x1b[0m") :=
  ⟨by decide,
   (format_entry_blank_line_and_header _ (by decide)).2.1 (by decide) (by decide)⟩

/-- C10: when the `timestamp` key is present with a falsy value, the
`time` alias is never consulted — the lookup returns the stored falsy
value, truthiness fails, and the header is rendered in a no-timestamp
case, whatever the `time` field holds. -/
theorem falsy_timestamp_ignores_time (j : JObj)
    (hkey : hasKey j "timestamp" = true)
    (hfalsy : truthy (pyGet j "timestamp" JVal.null) = false)
    (hty : strOrFalsy (pyGet j "type" JVal.null) = true) :
    (truthy (pyGet j "type" JVal.null) = true →
        headerLine j = some ("\x1b[33m[No timestamp]\x1b[0m "
          ++ get_color_code (pyStr (pyGet j "type" JVal.null))
          ++ "[" ++ pyStr (pyGet j "type" JVal.null) ++ "]\x1b[0m")) ∧
    (truthy (pyGet j "type" JVal.null) = false →
        headerLine j = some "\x1b[33m[No timestamp or type]\x1b[0m") := by
  have heq : pyGet j "timestamp" (pyGet j "time" JVal.null)
      = pyGet j "timestamp" JVal.null :=
    pyGet_present j "timestamp" hkey _ _
  have h1 : truthy (pyGet j "timestamp" (pyGet j "time" JVal.null)) = false := by
    rw [heq]; exact hfalsy
  exact ⟨fun h2 => (headerLine_cases j hty).2.2.1 h1 h2,
         fun h2 => (headerLine_cases j hty).2.2.2 h1 h2⟩

theorem falsy_timestamp_ignores_time_witness :
    (hasKey [("timestamp", JVal.null), ("time", JVal.str "2024-01-01T00:00:00Z"),
        ("type", JVal.str "info")] "timestamp" = true ∧
     truthy (pyGet [("timestamp", JVal.null), ("time", JVal.str "2024-01-01T00:00:00Z"),
        ("type", JVal.str "info")] "timestamp" JVal.null) = false) ∧
    headerLine [("timestamp", JVal.null), ("time", JVal.str "2024-01-01T00:00:00Z"),
        ("type", JVal.str "info")]
      = some ("\x1b[33m[No timestamp]\x1b[0m "
          ++ get_color_code (pyStr (pyGet [("timestamp", JVal.null),
                ("time", JVal.str "2024-01-01T00:00:00Z"),
                ("type", JVal.str "info")] "type" JVal.null))
          ++ "[" ++ pyStr (pyGet [("timestamp", JVal.null),
                ("time", JVal.str "2024-01-01T00:00:00Z"),
                ("type", JVal.str "info")] "type" JVal.null) ++ "]\x1b[0m") :=
  ⟨⟨by decide, by decide⟩,
   (falsy_timestamp_ignores_time _ (by decide) (by decide) (by decide)).1 (by decide)⟩

theorem get_log_summary_totalPages (lines : List PyLine) (s : LogSummary)
    (h : get_log_summary lines = some s) :
    s.totalPages = (lines.length + 20 - 1) / 20 := by
  unfold get_log_summary at h
  cases hc : collectTimestamps lines with
  | none => rw [hc] at h; exact absurd h (by simp)
  | some ts =>
      rw [hc] at h
      cases h
      rfl

/-- C7 counterexample: a single-line input whose line is the valid JSON
number `5` makes `get_log_summary` raise — `json.loads` succeeds, then
`(5).get('timestamp')` is an uncaught `AttributeError` — so no page count
is reported at all, while a one-line non-JSON input is summarized as one
page. -/
theorem summary_scalar_crash_cex :
    get_log_summary [PyLine.json (JVal.num 5)] = none ∧
    (get_log_summary [PyLine.raw "5x"]).map LogSummary.totalPages = some 1 := by
  decide

/-- C7 (amended): whenever the summary computation completes (no line is
a scalar JSON value and truthy timestamps are strings), the reported page
count is the ceiling of `n / 20`; 45 raw lines summarize to 3 pages, and
from the first page two space keypresses display all 45 lines, after
which the loop's next automatic outcome is the end-of-file notice. -/
theorem pagination_page_accounting :
    (∀ (lines : List PyLine) (s : LogSummary), get_log_summary lines = some s →
        lines.length ≤ 20 * s.totalPages ∧
        ∀ k, lines.length ≤ 20 * k → s.totalPages ≤ k) ∧
    (get_log_summary (List.replicate 45 (PyLine.raw "x"))).map LogSummary.totalPages
      = some 3 ∧
    pagRun (List.replicate 45 (PyLine.raw "x")) 0 [' ', ' '] []
      = some (List.replicate 45 (pagRawMark ++ "x") ++ [eofMessage], 45, true) := by
  refine ⟨fun lines s h => ?_, by decide, by decide⟩
  rw [get_log_summary_totalPages lines s h]
  constructor
  · omega
  · intro k hk
    omega

theorem pagination_page_accounting_witness :
    get_log_summary (List.replicate 45 (PyLine.raw "x"))
      = some ⟨45, "N/A", "N/A", 3⟩ ∧
    (List.replicate 45 (PyLine.raw "x")).length
      ≤ 20 * (LogSummary.mk 45 "N/A" "N/A" 3).totalPages :=
  ⟨by decide, (pagination_page_accounting.1 _ _ (by decide)).1⟩

/-- C9 counterexample: in follow mode the raw line is stripped before
printing, so a non-JSON line carrying leading whitespace is not passed
through verbatim — the original text does not occur in the emitted
output. -/
theorem follow_strip_cex :
    renderLineFollow (PyLine.raw "\tnotjson") = some [followRawMark ++ "notjson"] ∧
    ¬ ("\tnotjson".data <:+: (followRawMark ++ "notjson").data) := by
  constructor
  · rfl
  · decide

/-- C9 (amended): a line that is not valid JSON never fails processing:
pagination prints it verbatim behind its marker (and a one-line run
completes through end-of-file), while follow mode prints it behind its
marker with surrounding whitespace stripped. -/
theorem raw_line_passthrough (s : String) :
    renderLinePag (PyLine.raw s) = some [pagRawMark ++ s] ∧
    renderLineFollow (PyLine.raw s) = some [followRawMark ++ pyStrip s] ∧
    pagRun [PyLine.raw s] 0 [] [] = some ([pagRawMark ++ s, eofMessage], 1, true) :=
  ⟨rfl, rfl, rfl⟩

theorem seekEntry_found : ∀ (ls : List PyLine) (k : Nat),
    seekEntry ls = some (some k) →
    (∃ l, ls.get? k = some l ∧ isEntryCheck l = some true) ∧
    ∀ j l, j < k → ls.get? j = some l → isEntryCheck l = some false := by
  intro ls
  induction ls with
  | nil => intro k h; simp [seekEntry] at h
  | cons a as ih =>
      intro k h
      unfold seekEntry at h
      cases hc : isEntryCheck a with
      | none => rw [hc] at h; exact absurd h (by simp)
      | some b =>
          cases b with
          | true =>
              rw [hc] at h
              have hk : 0 = k := by
                have h1 := Option.some.inj h
                exact Option.some.inj h1
              subst hk
              exact ⟨⟨a, rfl, hc⟩, fun j l hj => absurd hj (by omega)⟩
          | false =>
              rw [hc] at h
              cases hs : seekEntry as with
              | none => rw [hs] at h; exact absurd h (by simp)
              | some o =>
                  cases o with
                  | none => rw [hs] at h; simp at h
                  | some k2 =>
                      rw [hs] at h
                      have hk : k2 + 1 = k := by
                        have h1 := Option.some.inj h
                        exact Option.some.inj h1
                      subst hk
                      obtain ⟨⟨l0, hl0, he0⟩, hbelow⟩ := ih k2 hs
                      refine ⟨⟨l0, by simpa using hl0, he0⟩, ?_⟩
                      intro j l hj hg
                      cases j with
                      | zero =>
                          have : a = l := by simpa using hg
                          rw [← this]
                          exact hc
                      | succ j2 =>
                          exact hbelow j2 l (by omega) (by simpa using hg)

theorem seekEntry_none : ∀ ls : List PyLine, seekEntry ls = some none →
    ∀ j l, ls.get? j = some l → isEntryCheck l = some false := by
  intro ls
  induction ls with
  | nil => intro _ j l hg; simp at hg
  | cons a as ih =>
      intro h j l hg
      unfold seekEntry at h
      cases hc : isEntryCheck a with
      | none => rw [hc] at h; exact absurd h (by simp)
      | some b =>
          cases b with
          | true => rw [hc] at h; simp at h
          | false =>
              rw [hc] at h
              cases hs : seekEntry as with
              | none => rw [hs] at h; exact absurd h (by simp)
              | some o =>
                  cases o with
                  | some k2 => rw [hs] at h; simp at h
                  | none =>
                      cases j with
                      | zero =>
                          have : a = l := by simpa using hg
                          rw [← this]
                          exact hc
                      | succ j2 => exact ih hs j2 l (by simpa using hg)

theorem list_get?_drop (lines : List PyLine) (start m : Nat) :
    (lines.drop start).get? m = lines.get? (start + m) := by
  simp [List.get?_eq_getElem?, List.getElem?_drop]

theorem find_next_spec (lines : List PyLine) (start idx : Nat)
    (hs : start ≤ lines.length)
    (h : find_next_timestamp_index lines start = some idx) :
    start ≤ idx ∧ idx ≤ lines.length ∧
    (∀ j l, start ≤ j → j < idx → lines.get? j = some l →
        isEntryCheck l = some false) ∧
    (∀ l, lines.get? idx = some l → isEntryCheck l = some true) := by
  unfold find_next_timestamp_index at h
  cases hse : seekEntry (lines.drop start) with
  | none => rw [hse] at h; exact absurd h (by simp)
  | some o =>
      cases o with
      | some k =>
          rw [hse] at h
          have hk : start + k = idx := Option.some.inj h
          subst hk
          obtain ⟨⟨l0, hl0, he0⟩, hbel⟩ := seekEntry_found _ _ hse
          rw [list_get?_drop] at hl0
          have hlt : start + k < lines.length := by
            obtain ⟨hh, -⟩ := List.get?_eq_some.mp hl0
            omega
          refine ⟨by omega, by omega, ?_, ?_⟩
          · intro j l hj1 hj2 hg
            have hj3 : j - start < k := by omega
            have := hbel (j - start) l hj3
            rw [list_get?_drop] at this
            exact this (by rw [show start + (j - start) = j from by omega]; exact hg)
          · intro l hg
            rw [hl0] at hg
            rw [← Option.some.inj hg]
            exact he0
      | none =>
          rw [hse] at h
          have hk : lines.length = idx := Option.some.inj h
          subst hk
          have hbel := seekEntry_none _ hse
          refine ⟨hs, le_refl _, ?_, ?_⟩
          · intro j l hj1 hj2 hg
            have := hbel (j - start) l
            rw [list_get?_drop] at this
            exact this (by rw [show start + (j - start) = j from by omega]; exact hg)
          · intro l hg
            obtain ⟨hh, -⟩ := List.get?_eq_some.mp hg
            omega

theorem pagRun_enter_unfold (lines : List PyLine) (cur0 cur idx : Nat)
    (o out : List String) (ks : List Char) (ch : Char)
    (hch : ch = '\n' ∨ ch = '\r')
    (hcur0 : cur0 < lines.length)
    (hdisp : displayPage lines cur0 20 = some (o, cur))
    (hcur : cur < lines.length)
    (hfind : find_next_timestamp_index lines cur = some idx) :
    pagRun lines cur0 (ch :: ks) out
      = if idx < lines.length then
          match lines.get? idx with
          | none => none
          | some l =>
              match renderLinePag l with
              | none => none
              | some r => pagRun lines (idx + 1) ks (out ++ o ++ r)
        else some (out ++ o ++ [eofMessage], cur, true) := by
  have hq : ¬ (ch.toLower = 'q') := by rcases hch with rfl | rfl <;> decide
  have hsp : ¬ (ch = ' ') := by rcases hch with rfl | rfl <;> decide
  conv_lhs => rw [pagRun]
  rw [if_pos hcur0, hdisp]
  simp only []
  rw [if_pos hcur, if_neg hq, if_neg hsp, if_pos hch, hfind]

/-- C8 (amended): provided the scan raises no `TypeError` (no scanned
line parses to a JSON number, boolean or null), the Enter-key jump lands
exactly on the first line at or after the current position that parses as
JSON and contains one of `timestamp`/`time`/`type`, skipping every
intervening raw or non-matching line; that single entry is rendered and
paging resumes just past it, and when no such line remains the loop
prints the end-of-file notice and stops. -/
theorem enter_jump_spec (lines : List PyLine) (cur0 cur idx : Nat)
    (o out : List String) (ks : List Char) (ch : Char)
    (hch : ch = '\n' ∨ ch = '\r')
    (hcur0 : cur0 < lines.length)
    (hdisp : displayPage lines cur0 20 = some (o, cur))
    (hcur : cur < lines.length)
    (hfind : find_next_timestamp_index lines cur = some idx) :
    cur ≤ idx ∧ idx ≤ lines.length ∧
    (∀ j l, cur ≤ j → j < idx → lines.get? j = some l →
        isEntryCheck l = some false) ∧
    (∀ l, lines.get? idx = some l → isEntryCheck l = some true) ∧
    (∀ l, lines.get? idx = some l →
        pagRun lines cur0 (ch :: ks) out
          = (renderLinePag l).bind (fun r => pagRun lines (idx + 1) ks (out ++ o ++ r))) ∧
    (idx = lines.length →
        pagRun lines cur0 (ch :: ks) out
          = some (out ++ o ++ [eofMessage], cur, true)) := by
  obtain ⟨h1, h2, h3, h4⟩ := find_next_spec lines cur idx (le_of_lt hcur) hfind
  refine ⟨h1, h2, h3, h4, ?_, ?_⟩
  · intro l hl
    obtain ⟨hlt, -⟩ := List.get?_eq_some.mp hl
    rw [pagRun_enter_unfold lines cur0 cur idx o out ks ch hch hcur0 hdisp hcur hfind,
        if_pos hlt, hl]
    cases hr : renderLinePag l <;> simp [hr]
  · intro hidx
    rw [pagRun_enter_unfold lines cur0 cur idx o out ks ch hch hcur0 hdisp hcur hfind,
        if_neg (by omega)]

/-- C8 counterexample: with the line list `[5, {"timestamp": "t"}]` the
scan from position 0 raises (`'timestamp' in 5` is a `TypeError` the code
does not catch) even though a matching entry exists right behind the
scalar line — the jump does not land there, the program aborts. -/
theorem enter_jump_scalar_cex :
    find_next_timestamp_index
        [PyLine.json (JVal.num 5),
         PyLine.json (JVal.obj [("timestamp", JVal.str "t")])] 0 = none ∧
    (([PyLine.json (JVal.num 5),
       PyLine.json (JVal.obj [("timestamp", JVal.str "t")])].get? 1).map isEntryCheck)
      = some (some true) := by
  decide

theorem enter_jump_spec_witness :
    pagRun (List.replicate 20 (PyLine.raw "x") ++ [PyLine.raw "y",
        PyLine.json (JVal.obj [("time", JVal.str "t"), ("a", JVal.num 1)]),
        PyLine.raw "z"]) 0 ['\n'] []
      = (renderLinePag (PyLine.json (JVal.obj [("time", JVal.str "t"),
            ("a", JVal.num 1)]))).bind
          (fun r => pagRun (List.replicate 20 (PyLine.raw "x") ++ [PyLine.raw "y",
              PyLine.json (JVal.obj [("time", JVal.str "t"), ("a", JVal.num 1)]),
              PyLine.raw "z"]) 22 []
            ([] ++ List.replicate 20 (pagRawMark ++ "x") ++ r)) :=
  (enter_jump_spec
    (List.replicate 20 (PyLine.raw "x") ++ [PyLine.raw "y",
      PyLine.json (JVal.obj [("time", JVal.str "t"), ("a", JVal.num 1)]),
      PyLine.raw "z"])
    0 20 21 (List.replicate 20 (pagRawMark ++ "x")) [] [] '\n'
    (Or.inl rfl) (by decide) rfl (by decide) (by decide)).2.2.2.2.1
    (PyLine.json (JVal.obj [("time", JVal.str "t"), ("a", JVal.num 1)])) rfl

theorem stamp_length (o : Origin) : ∀ (n : Nat) (ps : List PyLine),
    (stamp o n ps).length = ps.length
  | _, [] => rfl
  | n, _ :: ps => by simp [stamp, stamp_length o (n + 1) ps]

theorem stamp_id_lt (o : Origin) : ∀ (n : Nat) (ps : List PyLine),
    ∀ l ∈ stamp o n ps, l.id < n + ps.length
  | n, [], l, hl => by simp [stamp] at hl
  | n, p :: ps, l, hl => by
      simp only [stamp, List.mem_cons] at hl
      rcases hl with rfl | hl
      · show n < n + (p :: ps).length
        simp only [List.length_cons]
        omega
      · have := stamp_id_lt o (n + 1) ps l hl
        simp only [List.length_cons]
        omega

theorem stamp_origin (o : Origin) : ∀ (n : Nat) (ps : List PyLine),
    ∀ l ∈ stamp o n ps, l.origin = o
  | n, [], l, hl => by simp [stamp] at hl
  | n, p :: ps, l, hl => by
      simp only [stamp, List.mem_cons] at hl
      rcases hl with rfl | hl
      · rfl
      · exact stamp_origin o (n + 1) ps l hl

theorem get_mem_drop {α : Type} (l : List α) (n : Nat) (h : n < l.length) :
    l.get ⟨n, h⟩ ∈ l.drop n := by
  have h2 : 0 < (l.drop n).length := by simp; omega
  have h3 : (l.drop n)[0] = l[n + 0] := List.getElem_drop ..
  have h4 : (l.drop n)[0] ∈ l.drop n := List.getElem_mem h2
  rw [List.get_eq_getElem]
  simpa using h3 ▸ h4

theorem mem_drop_succ {α : Type} (l : List α) (n : Nat) (x : α)
    (h : x ∈ l.drop (n + 1)) : x ∈ l.drop n := by
  have hd : l.drop (n + 1) = (l.drop n).drop 1 := by rw [List.drop_drop]
  exact List.mem_of_mem_drop (hd ▸ h)

theorem getD_set_self {α : Type} (l : List α) (i : Nat) (f d : α)
    (h : i < l.length) : (l.set i f).getD i d = f := by
  have : (l.set i f)[i]? = some f := by
    rw [List.getElem?_set_self]
    simpa using h
  simp [List.getD, this]

theorem getD_set_ne {α : Type} (l : List α) (i j : Nat) (f d : α)
    (h : i ≠ j) : (l.set i f).getD j d = l.getD j d := by
  simp [List.getD, List.getElem?_set_ne h]

theorem getD_append_lt {α : Type} (l : List α) (x d : α) (i : Nat)
    (h : i < l.length) : (l ++ [x]).getD i d = l.getD i d := by
  simp [List.getD, List.getElem?_append_left h]

theorem getD_append_self {α : Type} (l : List α) (x d : α) :
    (l ++ [x]).getD l.length d = x := by
  have : (l ++ [x])[l.length]? = some x := by
    rw [List.getElem?_eq_getElem (by simp)]
    rw [List.getElem_concat_length l x _ rfl]
  simp [List.getD, this]


theorem fileAt_mem (st : FState) (i : Nat) (h : i < st.files.length) :
    fileAt st i ∈ st.files := by
  unfold fileAt
  rw [List.getD_eq_getElem _ _ h]
  exact List.getElem_mem h

theorem StInv_step (st : FState) (e : FEv) (h : StInv st) :
    StInv (fstep st e) := by
  obtain ⟨h1, h2, h3, h4⟩ := h
  cases e with
  | append p =>
      refine ⟨by simpa [fstep] using h1, by simpa [fstep] using h2, ?_, ?_⟩
      · show st.hOff ≤ (fileAt (fstep st (.append p)) st.hIno).length
        by_cases hpi : st.pathIno = st.hIno
        · have : fileAt (fstep st (.append p)) st.hIno
              = fileAt st st.pathIno ++ [⟨st.nextId, .appended, p⟩] := by
            simp only [fstep, fileAt]
            rw [← hpi]
            exact getD_set_self _ _ _ _ h2
          rw [this, hpi]
          simp only [List.length_append, List.length_cons, List.length_nil]
          omega
        · have : fileAt (fstep st (.append p)) st.hIno = fileAt st st.hIno := by
            simp only [fstep, fileAt]
            exact getD_set_ne _ _ _ _ _ hpi
          rw [this]
          exact h3
      · intro f hf l hl
        simp only [fstep] at hf
        rcases List.mem_or_eq_of_mem_set hf with hf2 | rfl
        · exact Nat.lt_succ_of_lt (h4 f hf2 l hl)
        · rcases List.mem_append.mp hl with hl2 | hl2
          · exact Nat.lt_succ_of_lt (h4 _ (fileAt_mem st st.pathIno h2) l hl2)
          · simp only [List.mem_singleton] at hl2
            rw [hl2]
            exact Nat.lt_succ_self _
  | replace ps =>
      refine ⟨?_, ?_, ?_, ?_⟩
      · show st.hIno < (st.files ++ [stamp .replaced st.nextId ps]).length
        simp only [List.length_append, List.length_cons, List.length_nil]
        omega
      · show st.files.length < (st.files ++ [stamp .replaced st.nextId ps]).length
        simp
      · show st.hOff ≤ (fileAt (fstep st (.replace ps)) st.hIno).length
        have : fileAt (fstep st (.replace ps)) st.hIno = fileAt st st.hIno := by
          simp only [fstep, fileAt]
          exact getD_append_lt _ _ _ _ h1
        rw [this]
        exact h3
      · intro f hf l hl
        show l.id < st.nextId + ps.length
        simp only [fstep] at hf
        rcases List.mem_append.mp hf with hf2 | hf2
        · have := h4 f hf2 l hl
          omega
        · simp only [List.mem_singleton] at hf2
          subst hf2
          exact stamp_id_lt _ _ _ l hl
  | read =>
      by_cases hr : st.hOff < (fileAt st st.hIno).length
      · have hstep : fstep st .read
            = { st with emitted := st.emitted ++ [(fileAt st st.hIno).get ⟨st.hOff, hr⟩],
                        hOff := st.hOff + 1 } := by
          simp [fstep, hr]
        rw [hstep]
        exact ⟨h1, h2, by simpa [fileAt] using hr, h4⟩
      · by_cases hp : st.pathIno = st.hIno
        · have hstep : fstep st .read = st := by
            simp [fstep, hr, hp]
          rw [hstep]
          exact ⟨h1, h2, h3, h4⟩
        · have hstep : fstep st .read
              = { st with hIno := st.pathIno, hOff := (fileAt st st.pathIno).length } := by
            simp [fstep, hr, hp]
          rw [hstep]
          exact ⟨h2, h2, le_refl _, h4⟩

theorem StInv_run (st : FState) (evs : List FEv) (h : StInv st) :
    StInv (runFrom st evs) := by
  induction evs generalizing st with
  | nil => exact h
  | cons e es ih => exact ih (fstep st e) (StInv_step st e h)


theorem followInv_step (st : FState) (e : FEv) (hs : StInv st)
    (h : followInv st) : followInv (fstep st e) := by
  obtain ⟨hs1, hs2, hs3, hs4⟩ := hs
  obtain ⟨h1, h2⟩ := h
  cases e with
  | append p =>
      refine ⟨h1, ?_⟩
      by_cases hpi : st.pathIno = st.hIno
      · have hfa : fileAt (fstep st (.append p)) st.hIno
            = fileAt st st.hIno ++ [⟨st.nextId, .appended, p⟩] := by
          show (st.files.set st.pathIno
              (st.files.getD st.pathIno [] ++ [⟨st.nextId, .appended, p⟩])).getD st.hIno []
            = st.files.getD st.hIno [] ++ [⟨st.nextId, .appended, p⟩]
          rw [hpi]
          exact getD_set_self _ _ _ _ hs1
        show ∀ l ∈ (fileAt (fstep st (.append p)) st.hIno).drop st.hOff,
          l.origin = Origin.appended
        rw [hfa, List.drop_append_of_le_length hs3]
        intro l hl
        rcases List.mem_append.mp hl with hl2 | hl2
        · exact h2 l hl2
        · simp only [List.mem_singleton] at hl2
          rw [hl2]
      · have hfa : fileAt (fstep st (.append p)) st.hIno = fileAt st st.hIno := by
          show (st.files.set st.pathIno
              (st.files.getD st.pathIno [] ++ [⟨st.nextId, .appended, p⟩])).getD st.hIno []
            = st.files.getD st.hIno []
          exact getD_set_ne _ _ _ _ _ hpi
        show ∀ l ∈ (fileAt (fstep st (.append p)) st.hIno).drop st.hOff,
          l.origin = Origin.appended
        rw [hfa]
        exact h2
  | replace ps =>
      refine ⟨h1, ?_⟩
      have hfa : fileAt (fstep st (.replace ps)) st.hIno = fileAt st st.hIno := by
        show (st.files ++ [stamp .replaced st.nextId ps]).getD st.hIno []
          = st.files.getD st.hIno []
        exact getD_append_lt _ _ _ _ hs1
      show ∀ l ∈ (fileAt (fstep st (.replace ps)) st.hIno).drop st.hOff,
        l.origin = Origin.appended
      rw [hfa]
      exact h2
  | read =>
      by_cases hr : st.hOff < (fileAt st st.hIno).length
      · have hstep : fstep st .read
            = { st with
                  emitted := st.emitted ++ [(fileAt st st.hIno).get ⟨st.hOff, hr⟩],
                  hOff := st.hOff + 1 } := by
          simp [fstep, hr]
        rw [hstep]
        constructor
        · show ∀ l ∈ st.emitted ++ [(fileAt st st.hIno).get ⟨st.hOff, hr⟩],
            l.origin = Origin.appended
          intro l hl
          rcases List.mem_append.mp hl with hl2 | hl2
          · exact h1 l hl2
          · simp only [List.mem_singleton] at hl2
            rw [hl2]
            exact h2 _ (get_mem_drop _ _ hr)
        · show ∀ l ∈ (fileAt st st.hIno).drop (st.hOff + 1), l.origin = Origin.appended
          intro l hl
          exact h2 l (mem_drop_succ _ _ _ hl)
      · by_cases hp : st.pathIno = st.hIno
        · have hstep : fstep st .read = st := by simp [fstep, hr, hp]
          rw [hstep]
          exact ⟨h1, h2⟩
        · have hstep : fstep st .read
              = { st with hIno := st.pathIno, hOff := (fileAt st st.pathIno).length } := by
            simp [fstep, hr, hp]
          rw [hstep]
          refine ⟨h1, ?_⟩
          show ∀ l ∈ (fileAt st st.pathIno).drop (fileAt st st.pathIno).length,
            l.origin = Origin.appended
          rw [List.drop_length]
          intro l hl
          exact absurd hl (List.not_mem_nil l)

theorem StInv_init (pre : List PyLine) : StInv (initFollow pre) := by
  refine ⟨?_, ?_, ?_, ?_⟩
  · show (0 : Nat) < 1
    decide
  · show (0 : Nat) < 1
    decide
  · show pre.length ≤ (stamp Origin.initial 0 pre).length
    rw [stamp_length]
  · intro f hf l hl
    show l.id < pre.length
    have hf2 : f = stamp Origin.initial 0 pre := by
      simpa [initFollow] using hf
    subst hf2
    simpa using stamp_id_lt _ _ _ l hl

theorem followInv_init (pre : List PyLine) : followInv (initFollow pre) := by
  constructor
  · intro l hl
    exact absurd hl (List.not_mem_nil l)
  · show ∀ l ∈ (stamp Origin.initial 0 pre).drop pre.length, l.origin = Origin.appended
    rw [show pre.length = (stamp Origin.initial 0 pre).length from (stamp_length _ _ _).symm,
        List.drop_length]
    intro l hl
    exact absurd hl (List.not_mem_nil l)

theorem followInv_run (st : FState) (evs : List FEv) (hs : StInv st)
    (h : followInv st) : followInv (runFrom st evs) := by
  induction evs generalizing st with
  | nil => exact h
  | cons e es ih =>
      exact ih (fstep st e) (StInv_step st e hs) (followInv_step st e hs h)

/-- C2: the follow loop attaches to the initial file seeked to its end,
and in every run, under any interleaving of appends, in-place
replacements and read steps, every line it ever emits is one the writer
appended while the loop was running — no line present in the initial
file, and no line belonging to a replacement file's initial payload, is
ever emitted. -/
theorem follow_no_preexisting_emitted (pre : List PyLine) (evs : List FEv) :
    (initFollow pre).hOff = (fileAt (initFollow pre) (initFollow pre).hIno).length ∧
    ∀ l ∈ (runFrom (initFollow pre) evs).emitted, l.origin = Origin.appended := by
  constructor
  · show pre.length = (stamp Origin.initial 0 pre).length
    exact (stamp_length _ _ _).symm
  · exact (followInv_run _ evs (StInv_init pre) (followInv_init pre)).1

theorem follow_no_preexisting_emitted_witness :
    (SLine.mk 1 Origin.appended (PyLine.raw "b")
        ∈ (runFrom (initFollow [PyLine.raw "a"])
            [FEv.append (PyLine.raw "b"), FEv.read]).emitted) ∧
    (SLine.mk 1 Origin.appended (PyLine.raw "b")).origin = Origin.appended := by
  have hm : SLine.mk 1 Origin.appended (PyLine.raw "b")
      ∈ (runFrom (initFollow [PyLine.raw "a"])
          [FEv.append (PyLine.raw "b"), FEv.read]).emitted := by
    rw [show (runFrom (initFollow [PyLine.raw "a"])
        [FEv.append (PyLine.raw "b"), FEv.read]).emitted
      = [SLine.mk 1 Origin.appended (PyLine.raw "b")] from rfl]
    exact List.mem_singleton.mpr rfl
  exact ⟨hm, (follow_no_preexisting_emitted [PyLine.raw "a"]
    [FEv.append (PyLine.raw "b"), FEv.read]).2 _ hm⟩


theorem deadIn_step (k : Nat) (st : FState) (e : FEv) (hs : StInv st)
    (h : deadIn k st) : deadIn k (fstep st e) := by
  obtain ⟨hs1, hs2, hs3, hs4⟩ := hs
  obtain ⟨h1, h2, h3⟩ := h
  cases e with
  | append p =>
      refine ⟨by show k < st.nextId + 1; omega, ?_, h3⟩
      by_cases hpi : st.pathIno = st.hIno
      · have hfa : fileAt (fstep st (.append p)) st.hIno
            = fileAt st st.hIno ++ [⟨st.nextId, .appended, p⟩] := by
          show (st.files.set st.pathIno
              (st.files.getD st.pathIno [] ++ [⟨st.nextId, .appended, p⟩])).getD st.hIno []
            = st.files.getD st.hIno [] ++ [⟨st.nextId, .appended, p⟩]
          rw [hpi]
          exact getD_set_self _ _ _ _ hs1
        show ∀ l ∈ (fileAt (fstep st (.append p)) st.hIno).drop st.hOff, l.id ≠ k
        rw [hfa, List.drop_append_of_le_length hs3]
        intro l hl
        rcases List.mem_append.mp hl with hl2 | hl2
        · exact h2 l hl2
        · simp only [List.mem_singleton] at hl2
          rw [hl2]
          show st.nextId ≠ k
          omega
      · have hfa : fileAt (fstep st (.append p)) st.hIno = fileAt st st.hIno := by
          show (st.files.set st.pathIno
              (st.files.getD st.pathIno [] ++ [⟨st.nextId, .appended, p⟩])).getD st.hIno []
            = st.files.getD st.hIno []
          exact getD_set_ne _ _ _ _ _ hpi
        show ∀ l ∈ (fileAt (fstep st (.append p)) st.hIno).drop st.hOff, l.id ≠ k
        rw [hfa]
        exact h2
  | replace ps =>
      refine ⟨by show k < st.nextId + ps.length; omega, ?_, h3⟩
      have hfa : fileAt (fstep st (.replace ps)) st.hIno = fileAt st st.hIno := by
        show (st.files ++ [stamp .replaced st.nextId ps]).getD st.hIno []
          = st.files.getD st.hIno []
        exact getD_append_lt _ _ _ _ hs1
      show ∀ l ∈ (fileAt (fstep st (.replace ps)) st.hIno).drop st.hOff, l.id ≠ k
      rw [hfa]
      exact h2
  | read =>
      by_cases hr : st.hOff < (fileAt st st.hIno).length
      · have hstep : fstep st .read
            = { st with
                  emitted := st.emitted ++ [(fileAt st st.hIno).get ⟨st.hOff, hr⟩],
                  hOff := st.hOff + 1 } := by
          simp [fstep, hr]
        rw [hstep]
        refine ⟨h1, ?_, ?_⟩
        · show ∀ l ∈ (fileAt st st.hIno).drop (st.hOff + 1), l.id ≠ k
          intro l hl
          exact h2 l (mem_drop_succ _ _ _ hl)
        · show ∀ l ∈ st.emitted ++ [(fileAt st st.hIno).get ⟨st.hOff, hr⟩], l.id ≠ k
          intro l hl
          rcases List.mem_append.mp hl with hl2 | hl2
          · exact h3 l hl2
          · simp only [List.mem_singleton] at hl2
            rw [hl2]
            exact h2 _ (get_mem_drop _ _ hr)
      · by_cases hp : st.pathIno = st.hIno
        · have hstep : fstep st .read = st := by simp [fstep, hr, hp]
          rw [hstep]
          exact ⟨h1, h2, h3⟩
        · have hstep : fstep st .read
              = { st with hIno := st.pathIno, hOff := (fileAt st st.pathIno).length } := by
            simp [fstep, hr, hp]
          rw [hstep]
          refine ⟨h1, ?_, h3⟩
          show ∀ l ∈ (fileAt st st.pathIno).drop (fileAt st st.pathIno).length, l.id ≠ k
          rw [List.drop_length]
          intro l hl
          exact absurd hl (List.not_mem_nil l)

theorem deadIn_run (k : Nat) (st : FState) (evs : List FEv) (hs : StInv st)
    (h : deadIn k st) : deadIn k (runFrom st evs) := by
  induction evs generalizing st with
  | nil => exact h
  | cons e es ih =>
      exact ih (fstep st e) (StInv_step st e hs) (deadIn_step k st e hs h)

theorem fstep_read_emit (X : FState) (hr : X.hOff < (fileAt X X.hIno).length) :
    fstep X .read
      = { X with emitted := X.emitted ++ [(fileAt X X.hIno).get ⟨X.hOff, hr⟩],
                 hOff := X.hOff + 1 } := by
  simp [fstep, hr]

/-- C1 (amended): when a read returns no data and the inode behind the
path has changed, the loop re-opens the same path and attaches to the
replacement at its then-current end, re-emitting nothing; every line
already inside the replacement at that moment — including any line
appended during the rotation window — is never emitted in any
continuation, while a line appended after the re-open is emitted by the
very next read. -/
theorem rotation_reopen_at_end (st : FState)
    (hinv : StInv st)
    (heof : (fileAt st st.hIno).length ≤ st.hOff)
    (hrot : st.pathIno ≠ st.hIno) :
    (fstep st .read).hIno = st.pathIno ∧
    (fstep st .read).hOff = (fileAt st st.pathIno).length ∧
    (fstep st .read).emitted = st.emitted ∧
    (∀ l ∈ fileAt st st.pathIno, (∀ e2 ∈ st.emitted, e2.id ≠ l.id) →
        ∀ evs, ∀ e2 ∈ (runFrom (fstep st .read) evs).emitted, e2.id ≠ l.id) ∧
    (∀ p, (fstep (fstep (fstep st .read) (.append p)) .read).emitted
        = st.emitted ++ [⟨st.nextId, .appended, p⟩]) := by
  obtain ⟨hs1, hs2, hs3, hs4⟩ := hinv
  have hnr : ¬ st.hOff < (fileAt st st.hIno).length := by omega
  have hstep : fstep st .read
      = { st with hIno := st.pathIno, hOff := (fileAt st st.pathIno).length } := by
    simp [fstep, hnr, hrot]
  refine ⟨by rw [hstep], by rw [hstep], by rw [hstep], ?_, ?_⟩
  · intro l hl hemit evs e2 he2
    have hsi : StInv (fstep st .read) := StInv_step st .read ⟨hs1, hs2, hs3, hs4⟩
    have hd : deadIn l.id (fstep st .read) := by
      rw [hstep]
      refine ⟨?_, ?_, ?_⟩
      · show l.id < st.nextId
        exact hs4 _ (fileAt_mem st st.pathIno hs2) l hl
      · show ∀ l2 ∈ (fileAt st st.pathIno).drop (fileAt st st.pathIno).length,
          l2.id ≠ l.id
        rw [List.drop_length]
        intro l2 hl2
        exact absurd hl2 (List.not_mem_nil l2)
      · show ∀ l2 ∈ st.emitted, l2.id ≠ l.id
        exact hemit
    exact (deadIn_run l.id (fstep st .read) evs hsi hd).2.2 e2 he2
  · intro p
    rw [hstep]
    have h2step : fstep (FState.mk st.files st.pathIno st.pathIno
          (fileAt st st.pathIno).length st.nextId st.emitted) (.append p)
        = FState.mk
            (st.files.set st.pathIno
              (fileAt st st.pathIno ++ [⟨st.nextId, .appended, p⟩]))
            st.pathIno st.pathIno (fileAt st st.pathIno).length
            (st.nextId + 1) st.emitted := rfl
    have hmk : ({ st with hIno := st.pathIno, hOff := (fileAt st st.pathIno).length } : FState)
        = FState.mk st.files st.pathIno st.pathIno
            (fileAt st st.pathIno).length st.nextId st.emitted := rfl
    rw [hmk, h2step]
    have hcur : fileAt (FState.mk
          (st.files.set st.pathIno
            (fileAt st st.pathIno ++ [⟨st.nextId, .appended, p⟩]))
          st.pathIno st.pathIno (fileAt st st.pathIno).length
          (st.nextId + 1) st.emitted) st.pathIno
        = fileAt st st.pathIno ++ [⟨st.nextId, .appended, p⟩] := by
      show (st.files.set st.pathIno
          (st.files.getD st.pathIno [] ++ [⟨st.nextId, .appended, p⟩])).getD st.pathIno []
        = st.files.getD st.pathIno [] ++ [⟨st.nextId, .appended, p⟩]
      exact getD_set_self _ _ _ _ hs2
    have hr2 : (FState.mk
          (st.files.set st.pathIno
            (fileAt st st.pathIno ++ [⟨st.nextId, .appended, p⟩]))
          st.pathIno st.pathIno (fileAt st st.pathIno).length
          (st.nextId + 1) st.emitted).hOff
        < (fileAt (FState.mk
            (st.files.set st.pathIno
              (fileAt st st.pathIno ++ [⟨st.nextId, .appended, p⟩]))
            st.pathIno st.pathIno (fileAt st st.pathIno).length
            (st.nextId + 1) st.emitted)
           (FState.mk
            (st.files.set st.pathIno
              (fileAt st st.pathIno ++ [⟨st.nextId, .appended, p⟩]))
            st.pathIno st.pathIno (fileAt st st.pathIno).length
            (st.nextId + 1) st.emitted).hIno).length := by
      show (fileAt st st.pathIno).length
        < (fileAt (FState.mk
            (st.files.set st.pathIno
              (fileAt st st.pathIno ++ [⟨st.nextId, .appended, p⟩]))
            st.pathIno st.pathIno (fileAt st st.pathIno).length
            (st.nextId + 1) st.emitted) st.pathIno).length
      rw [hcur]
      simp
    rw [fstep_read_emit _ hr2]
    show st.emitted ++ [_] = st.emitted ++ [_]
    congr 1
    rw [List.get_eq_getElem]
    simp only [hcur]
    exact congrArg (fun z => [z]) (List.getElem_concat_length _ _ _ rfl _)

theorem rotation_reopen_at_end_witness :
    ((fileAt (FState.mk [[], [⟨0, Origin.appended, PyLine.raw "x"⟩]] 1 0 0 1 []) 0).length
        ≤ (FState.mk [[], [⟨0, Origin.appended, PyLine.raw "x"⟩]] 1 0 0 1 []).hOff) ∧
    (fstep (fstep (fstep (FState.mk [[], [⟨0, Origin.appended, PyLine.raw "x"⟩]] 1 0 0 1 [])
        .read) (.append (PyLine.raw "y"))) .read).emitted
      = (FState.mk [[], [⟨0, Origin.appended, PyLine.raw "x"⟩]] 1 0 0 1 []).emitted
        ++ [⟨1, Origin.appended, PyLine.raw "y"⟩] :=
  ⟨by decide,
   (rotation_reopen_at_end (FState.mk [[], [⟨0, Origin.appended, PyLine.raw "x"⟩]] 1 0 0 1 [])
      (by refine ⟨by decide, by decide, by decide, ?_⟩
          decide)
      (by decide) (by decide)).2.2.2.2 (PyLine.raw "y")⟩

/-- C1 counterexample: starting from an empty tracked file, the path is
replaced in place by a fresh empty file, the line `"x"` (identity 0) is
appended to the replacement, and only then does the loop's read hit end
of file and detect the inode change; it re-opens the path seeked to the
end, skipping `"x"`.  A later append `"y"` (identity 1) is emitted, so
the transition itself succeeded, yet the line appended during the
rotation window was dropped: the emitted sequence is exactly `["y"]` and
contains no line with identity 0. -/
theorem rotation_drops_line_cex :
    (runFrom (initFollow [])
        [FEv.replace [], FEv.append (PyLine.raw "x"), FEv.read,
         FEv.append (PyLine.raw "y"), FEv.read]).emitted
      = [⟨1, Origin.appended, PyLine.raw "y"⟩] ∧
    ((runFrom (initFollow [])
        [FEv.replace [], FEv.append (PyLine.raw "x"), FEv.read,
         FEv.append (PyLine.raw "y"), FEv.read]).emitted.all
      (fun e2 => e2.id != 0)) = true :=
  ⟨rfl, rfl⟩
